import Mathlib

/-!
Verification development for the defopt docstring/type-driven CLI pipeline
(`src/defopt.py`).  The Python source is shallowly embedded: Python string
operations are modelled over `List Char` so that every definition reduces in
the kernel, fallible operations return `Except String`, and the caller-supplied
override-parser table (the `parsers=` argument) is modelled as a lookup
function.  Python type objects are modelled by the inductive `Ty`/`STy` below;
following `typing`'s own invariant, unions are flattened (a union member is
never itself a union), which the stratified `Ty` makes structural.
-/

namespace Defopt

/-! ### Python string primitives, modelled over `List Char` -/

/-- Models Python `str.lower` (ASCII range, which is all the source compares). -/
def pyLower (s : String) : String := String.mk (s.data.map Char.toLower)

def isPyWs (c : Char) : Bool := c = ' ' || c = '\t' || c = '\n' || c = '\r'

/-- Models Python `str.strip()` (used by `int()` on its argument). -/
def pyStripWs (s : List Char) : List Char :=
  ((s.dropWhile isPyWs).reverse.dropWhile isPyWs).reverse

/-- Models Python `str.split()` with no argument: split on whitespace runs,
dropping empty pieces. -/
def wsSplitAux : List Char → List Char → List (List Char)
  | acc, [] => if acc.isEmpty then [] else [acc.reverse]
  | acc, c :: rest =>
    if isPyWs c then
      (if acc.isEmpty then wsSplitAux [] rest else acc.reverse :: wsSplitAux [] rest)
    else wsSplitAux (c :: acc) rest

def pySplitWs (s : String) : List String := (wsSplitAux [] s.data).map String.mk

/-- Models Python `str.split(' or ')`: split on the leftmost non-overlapping
occurrences of the four-character separator. -/
def splitOrAux : List Char → List Char → List (List Char)
  | acc, [] => [acc.reverse]
  | acc, ' ' :: 'o' :: 'r' :: ' ' :: rest => acc.reverse :: splitOrAux [] rest
  | acc, c :: rest => splitOrAux (c :: acc) rest

def pySplitOr (s : String) : List String := (splitOrAux [] s.data).map String.mk

/-- Models Python `str.lstrip('*\0')` from `Visitor.visit_field`. -/
def pyLstripStarNul (s : String) : String :=
  String.mk (s.data.dropWhile (fun c => c = '*' || c = Char.ofNat 0))

/-- Models Python `str.startswith('_')`. -/
def startsWithUnderscore (s : String) : Bool :=
  match s.data with
  | '_' :: _ => true
  | _ => false

def digitChar (d : Nat) : Char := Char.ofNat (48 + d)

def natDigitsAux : Nat → Nat → List Char
  | 0, _ => []
  | _ + 1, 0 => []
  | fuel + 1, n + 1 => natDigitsAux fuel ((n + 1) / 10) ++ [digitChar ((n + 1) % 10)]

/-- Decimal rendering of a natural number (models Python `str(i)`). -/
def natToStr (n : Nat) : String := if n = 0 then "0" else String.mk (natDigitsAux (n + 1) n)

def natFromDigitsAux : Nat → List Char → Nat
  | acc, [] => acc
  | acc, c :: rest => natFromDigitsAux (acc * 10 + (c.toNat - 48)) rest

def isAsciiDigit (c : Char) : Bool := '0' ≤ c && c ≤ '9'

/-- Models Python `int(string)`: optional surrounding whitespace, optional
sign, then a nonempty digit string.  (Python additionally accepts underscore
digit grouping, which no claim exercises and which is not modelled.) -/
def pyParseInt (s : String) : Except String Int :=
  let l := pyStripWs s.data
  let signed : Int × List Char :=
    match l with
    | '+' :: r => (1, r)
    | '-' :: r => (-1, r)
    | r => (1, r)
  if signed.2 ≠ [] ∧ signed.2.all isAsciiDigit then
    .ok (signed.1 * (natFromDigitsAux 0 signed.2 : Nat))
  else
    .error ("invalid literal for int() with base 10: " ++ s)

/-- Models Python `float(string)` acceptance: optional sign, then either
digits with an optional fractional part or a leading-dot fraction, with an
optional exponent, or `inf`/`nan`.  (Approximates CPython's grammar on the
forms the source can meet; the numeric value itself is kept opaque.) -/
def pyFloatAccepts (s : String) : Bool :=
  let l := pyStripWs s.data
  let l := match l with
    | '+' :: r => r
    | '-' :: r => r
    | r => r
  let lw := l.map Char.toLower
  if lw = ['i', 'n', 'f'] ∨ lw = ['i', 'n', 'f', 'i', 'n', 'i', 't', 'y'] ∨ lw = ['n', 'a', 'n'] then
    true
  else
    let (mant, expPart) :=
      match l.span (fun c => c ≠ 'e' ∧ c ≠ 'E') with
      | (m, []) => (m, none)
      | (m, _ :: e) => (m, some e)
    let mantOk :=
      match mant.span isAsciiDigit with
      | (ds, []) => ¬ds.isEmpty
      | (ds, '.' :: fs) => (¬ds.isEmpty ∨ ¬fs.isEmpty) ∧ fs.all isAsciiDigit
      | _ => false
    let expOk :=
      match expPart with
      | none => true
      | some e =>
        let e := match e with
          | '+' :: r => r
          | '-' :: r => r
          | r => r
        ¬e.isEmpty ∧ e.all isAsciiDigit
    mantOk && expOk

/-- Sequential fallible mapping (the semantics of a Python list
comprehension or generator over calls that may raise): stop at the first
failure. -/
def exceptMapList {α β : Type} (f : α → Except String β) : List α → Except String (List β)
  | [] => .ok []
  | a :: rest =>
    match f a with
    | .ok b =>
      match exceptMapList f rest with
      | .ok bs => .ok (b :: bs)
      | .error e => .error e
    | .error e => .error e

/-! ### The type model

`STy` models the non-union Python type objects the pipeline handles; `Ty` adds
unions on top.  `typing` flattens nested unions, so union members are
non-union types, which the stratification makes structural.  `custom` models
any other class, with the result of `_is_constructible_from_str` recorded as a
flag (the real detection inspects the class constructor's signature, an
external-reflection concern).  `path` stands for `pathlib.PurePath` and its
subclasses.  `list e` models `list[e]` and the other `_LIST_TYPES` generics,
which `_get_type_from_hint` canonicalizes to `List[e]`; `tup`/`vtup` model
`tuple[e1, ..., en]` and `tuple[e, ...]`; `record` models a typed namedtuple
(field names, which only affect help metavars, are not modelled). -/

inductive STy where
  | str
  | int
  | float
  | bool
  | none
  | path
  | custom (nm : String) (ctorFromStr : Bool)
  | list (elem : STy)
  | tup (elems : List STy)
  | vtup (elem : STy)
  | record (nm : String) (fields : List STy)

inductive Ty where
  | base (t : STy)
  | union (args : List STy)

mutual
/-- Structural equality on `STy`; models Python `==` on these type objects
(identity for classes, structural for generic aliases). -/
def STy.beq : STy → STy → Bool
  | .str, .str => true
  | .int, .int => true
  | .float, .float => true
  | .bool, .bool => true
  | .none, .none => true
  | .path, .path => true
  | .custom n b, .custom m c => n = m && b = c
  | .list a, .list b => STy.beq a b
  | .tup as, .tup bs => STy.beqList as bs
  | .vtup a, .vtup b => STy.beq a b
  | .record n as, .record m bs => n = m && STy.beqList as bs
  | _, _ => false

def STy.beqList : List STy → List STy → Bool
  | [], [] => true
  | a :: as, b :: bs => STy.beq a b && STy.beqList as bs
  | _, _ => false
end

def isNoneSTy : STy → Bool
  | .none => true
  | _ => false

/-- Models `_is_list_like` (`get_origin(t) in _LIST_TYPES`) on non-union types. -/
def isListLikeS : STy → Bool
  | .list _ => true
  | _ => false

/-- Models `_is_container` (`get_origin(t) in {*_LIST_TYPES, tuple}`). -/
def isContainerS : STy → Bool
  | .list _ => true
  | .tup _ => true
  | .vtup _ => true
  | _ => false

/-- Models `type.__name__` (for a generic alias, attribute lookup is delegated
to the origin class, so `List[int].__name__` is `"list"`). -/
def styName : STy → String
  | .str => "str"
  | .int => "int"
  | .float => "float"
  | .bool => "bool"
  | .none => "NoneType"
  | .path => "PurePath"
  | .custom nm _ => nm
  | .list _ => "list"
  | .tup _ => "tuple"
  | .vtup _ => "tuple"
  | .record nm _ => nm

def pyTyName : Ty → String
  | .base t => styName t
  | .union _ => "Union"

/-- Models Python `==` on the modelled type objects: structural on non-union
types, unordered member-set comparison on unions (as `typing.Union` defines). -/
def pyTyEq : Ty → Ty → Bool
  | .base a, .base b => STy.beq a b
  | .union as, .union bs =>
    as.all (fun a => bs.any (fun b => STy.beq a b)) &&
      bs.all (fun b => as.any (fun a => STy.beq a b))
  | _, _ => false

/-! ### Parsed values and the built-in scalar parsers -/

/-- Result values produced by the synthesized parsers.  `vfloat` keeps the
accepted token opaque (no floating-point arithmetic is modelled); `vcustom`
models `type_(string)` for a string-constructible class. -/
inductive Value where
  | vnone
  | vbool (b : Bool)
  | vint (n : Int)
  | vfloat (raw : String)
  | vstr (s : String)
  | vpath (s : String)
  | vcustom (tyNm : String) (arg : String)
  | vtuple (elems : List Value)
  | vrecord (tyNm : String) (elems : List Value)
  | vlist (elems : List Value)

/-- Models `_parse_bool`. -/
def parseBool (s : String) : Except String Bool :=
  if pyLower s ∈ (["t", "true", "1"] : List String) then .ok true
  else if pyLower s ∈ (["f", "false", "0"] : List String) then .ok false
  else .error (s ++ " is not a valid boolean string")

/-- Models `_parse_none`: rejects every string. -/
def parseNone (_ : String) : Except String Value :=
  .error "no string can be converted to None"

def parseFloat (s : String) : Except String Value :=
  if pyFloatAccepts s then .ok (.vfloat s)
  else .error ("could not convert string to float: " ++ s)

/-! ### `_get_parser`: scalar and union parser synthesis -/

/-- A synthesized string-to-value parser.  `passthrough` records whether the
object is a bare `functools.partial` of `str` or of a `PurePath` subclass,
which is what `_get_parser`'s union branch tests to stop building further
member parsers. -/
structure PParser where
  run : String → Except String Value
  passthrough : Bool
  nm : String

/-- The caller-supplied override table (`parsers=` argument), consulted before
the built-in table; lookup is by type object. -/
def Table := Ty → Option (String → Except String Value)

/-- Models `_get_parser` on non-union types.  The branches appear in source
order: override table, `str`/`int`/`float`/`PurePath` passthroughs, `bool`,
`NoneType`, string-constructible classes; everything else (bare or generic
containers, tuples, non-constructible classes) raises "no parser found".
The `slice`, `Enum` and `Literal` branches handle types outside this model's
universe and are not embedded. -/
def getParserS (tbl : Table) (t : STy) : Except String PParser :=
  match tbl (.base t) with
  | some f => .ok ⟨f, false, styName t⟩
  | none =>
    match t with
    | .str => .ok ⟨fun s => .ok (.vstr s), true, "str"⟩
    | .int => .ok ⟨fun s => (pyParseInt s).map .vint, false, "int"⟩
    | .float => .ok ⟨parseFloat, false, "float"⟩
    | .path => .ok ⟨fun s => .ok (.vpath s), true, "PurePath"⟩
    | .bool => .ok ⟨fun s => (parseBool s).map .vbool, false, "bool"⟩
    | .none => .ok ⟨parseNone, false, "NoneType"⟩
    | .custom nm ctorFromStr =>
      if ctorFromStr then .ok ⟨fun s => .ok (.vcustom nm s), false, nm⟩
      else .error ("no parser found for type " ++ nm)
    | other => .error ("no parser found for type " ++ styName other)

/-- Models the member reordering in `_get_parser`'s union branch: if
`type(None)` is among the union's arguments, it is parsed first (all `None`
occurrences are filtered out of the remainder). -/
def noneFirst (args : List STy) : List STy :=
  if args.any isNoneSTy then .none :: args.filter (fun a => !isNoneSTy a)
  else args

/-- Models the member-parser construction loop in `_get_parser`'s union
branch: build one parser per member, stopping after an infallible
`str`/`PurePath` passthrough (later members are never built). -/
def buildMembers (tbl : Table) : List STy → Except String (List PParser)
  | [] => .ok []
  | a :: rest =>
    match getParserS tbl a with
    | .error e => .error e
    | .ok p =>
      if p.passthrough then .ok [p]
      else
        match buildMembers tbl rest with
        | .ok ps => .ok (p :: ps)
        | .error e => .error e

/-- Models `_make_union_parser`'s apply behaviour: try each member parser in
order and return the first success; if all fail, report the union. -/
def tryParsers (unionNm : String) (ps : List PParser) (value : String) : Except String Value :=
  match ps with
  | [] => .error (value ++ " could not be parsed as any of " ++ unionNm)
  | p :: rest =>
    match p.run value with
    | .ok r => .ok r
    | .error _ => tryParsers unionNm rest value

/-- Models `_get_parser` on the full type universe, adding the union branch
(override-table lookup first, then member reordering, member construction
and first-success application). -/
def getParser (tbl : Table) : Ty → Except String PParser
  | .base t => getParserS tbl t
  | .union args =>
    match tbl (.union args) with
    | some f => .ok ⟨f, false, pyTyName (.union args)⟩
    | none =>
      match buildMembers tbl (noneFirst args) with
      | .error e => .error e
      | .ok ps =>
        .ok ⟨tryParsers (pyTyName (.union args)) ps, false, pyTyName (.union args)⟩

/-! ### `_make_store_tuple_action_class` and the argparse arity interface -/

/-- Models the `parse` closure of `_make_store_tuple_action_class`: try the
NoneType parser on the (single) token first when one was supplied, then apply
the member parsers pairwise (`zip` semantics) and wrap the results.  The
source only installs `with_none_parser` together with `nargs=1`, so the
token list has one element whenever it is set; it catches `ValueError` from
that parser, which the uniform error model here widens to any failure. -/
def storeTupleRun (wrap : List Value → Value)
    (withNone : Option (String → Except String Value))
    (mkPairs : List String → List ((String → Except String Value) × String))
    (values : List String) : Except String Value :=
  let core : Except String Value :=
    match exceptMapList (fun pv => pv.1 pv.2) (mkPairs values) with
    | .ok vs => .ok (wrap vs)
    | .error e => .error e
  match withNone with
  | some np =>
    match values with
    | [v] =>
      match np v with
      | .ok r => .ok r
      | .error _ => core
    | _ => core
  | Option.none => core

inductive NargsSpec where
  | exact (n : Nat)
  | star

inductive ArgConv where
  | perToken (f : String → Except String Value)
  | wholeAction (f : List String → Except String Value)

/-- The part of one synthesized argparse argument that the claims are about:
the declared token-count specification (`nargs`, absent for a plain scalar)
and the conversion (argparse's per-token `type` function, or a custom store
action over all tokens). -/
structure ArgSpec where
  nargs : Option NargsSpec
  conv : ArgConv

/-- Models the argparse collaborator's handling of one argument: enforce the
declared `nargs` token count, then either apply the `type` function (to the
single token, or to each token building a list) or hand all tokens to the
custom action. -/
def applyArgSpec (spec : ArgSpec) (tokens : List String) : Except String Value :=
  let countOk : Bool :=
    match spec.nargs with
    | Option.none => tokens.length = 1
    | some (.exact n) => tokens.length = n
    | some .star => true
  if countOk then
    match spec.conv with
    | .perToken f =>
      match spec.nargs with
      | Option.none =>
        match tokens with
        | [t] => f t
        | _ => .error "expected one argument"
      | _ =>
        match exceptMapList f tokens with
        | .ok vs => .ok (.vlist vs)
        | .error e => .error e
    | .wholeAction f => f tokens
  else .error "wrong number of arguments"

/-- Models the per-parameter type-compilation fragment of `_populate_parser`
(everything from the Optional-container unwrap down to the final
`kwargs['type']` assignment), given the union arguments of the original
annotation and the working type.  The boolean-flag special case, the `Enum`
and `Literal` branches and the VAR_POSITIONAL append behaviour are outside
this model's universe. -/
def synthCore (tbl : Table) (unionArgs : List STy) (t1 : Ty) : Except String ArgSpec :=
  match t1 with
  | .union as2 =>
    match getParser tbl (.union as2) with
    | .error e => .error e
    | .ok p => .ok ⟨Option.none, .perToken p.run⟩
  | .base t0 =>
    let unwrap : STy × Bool :=
      match t0 with
      | .list e => (e, true)
      | other => (other, false)
    let t2 := unwrap.1
    let starFromList := unwrap.2
    match t2 with
    | .vtup e =>
      match getParserS tbl e with
      | .error er => .error er
      | .ok p =>
        .ok ⟨some .star,
             .wholeAction (storeTupleRun .vtuple Option.none
               (fun vs => vs.map (fun v => (p.run, v))))⟩
    | .tup es =>
      if unionArgs.any isNoneSTy ∧ (tbl (.base .none)).isSome then
        if es.length = 1 then
          match exceptMapList (getParserS tbl) es with
          | .error er => .error er
          | .ok ps =>
            .ok ⟨some (.exact 1),
                 .wholeAction (storeTupleRun .vtuple (tbl (.base .none))
                   (fun vs => (ps.map (fun p => p.run)).zip vs))⟩
        else
          .error "Optional tuples of length > 1 and NoneType parsers cannot be used together due to ambiguity"
      else
        match exceptMapList (getParserS tbl) es with
        | .error er => .error er
        | .ok ps =>
          .ok ⟨some (.exact es.length),
               .wholeAction (storeTupleRun .vtuple Option.none
                 (fun vs => (ps.map (fun p => p.run)).zip vs))⟩
    | .record nm fs =>
      match exceptMapList (getParserS tbl) fs with
      | .error er => .error er
      | .ok ps =>
        .ok ⟨some (.exact fs.length),
             .wholeAction (storeTupleRun (.vrecord nm) Option.none
               (fun vs => (ps.map (fun p => p.run)).zip vs))⟩
    | other =>
      match getParserS tbl other with
      | .error er => .error er
      | .ok p =>
        .ok ⟨if starFromList then some .star else Option.none, .perToken p.run⟩

/-- Models `_populate_parser`'s per-parameter entry into `synthCore`: compute
the union arguments, and if any of them is container-shaped, require exactly
one non-`None` member and unwrap to it before continuing. -/
def synthesizeArg (tbl : Table) (ty : Ty) : Except String ArgSpec :=
  let unionArgs : List STy :=
    match ty with
    | .union as => as
    | .base _ => []
  if unionArgs.any isContainerS then
    match unionArgs.filter (fun a => !isNoneSTy a) with
    | [c] => synthCore tbl unionArgs (.base c)
    | _ => .error ("unsupported union including container type: " ++ pyTyName ty)
  else synthCore tbl unionArgs ty

/-! ### Doc-type resolution and the signature merge -/

def isNoneTy : Ty → Bool
  | .base t => isNoneSTy t
  | .union _ => false

def isListLikeTy : Ty → Bool
  | .base t => isListLikeS t
  | .union _ => false

def flattenUnionMembers : List Ty → List STy
  | [] => []
  | .base t :: rest => t :: flattenUnionMembers rest
  | .union as :: rest => as ++ flattenUnionMembers rest

def dedupSTyAux (seen : List STy) : List STy → List STy
  | [] => []
  | a :: rest =>
    if seen.any (STy.beq a) then dedupSTyAux seen rest
    else a :: dedupSTyAux (seen ++ [a]) rest

/-- Models `typing.Union[tuple(subtypes)]` construction: flatten nested
unions, deduplicate members, collapse a singleton to the bare type. -/
def mkUnion (ts : List Ty) : Ty :=
  match dedupSTyAux [] (flattenUnionMembers ts) with
  | [t] => .base t
  | l => .union l

/-- Models `_get_type_from_hint`: list-like generics are canonicalized to
`List[elem]`, which the `STy.list` constructor already is, and every other
hint is returned unchanged. -/
def getTypeFromHint (h : Ty) : Ty := h

/-- The namespace provider: models `eval(token, globalns)` resolving a type
expression string to a type object (`Option.none` models a `NameError`). -/
def Namespace := String → Option Ty

def evalTypeToken (g : Namespace) (tok : String) : Except String Ty :=
  match g tok with
  | some t => .ok (getTypeFromHint t)
  | Option.none => .error ("name " ++ tok ++ " is not defined")

/-- Models `_get_type_from_doc`.  A token containing `' or '` is split and
resolved memberwise; the union is rejected if a member is list-like unless
`None` is also a member.  The recursive calls on the pieces of the split
cannot themselves contain `' or '`, so they always take the `eval` branch,
which the embedding applies directly.  (The source's `None not in subtypes`
tests for the `None` object, which token `"None"` evaluates to; the model
identifies it with the `NoneType` entry.) -/
def getTypeFromDoc (g : Namespace) (nm : String) : Except String Ty :=
  let parts := pySplitOr nm
  if parts.length > 1 then
    match exceptMapList (evalTypeToken g) parts with
    | .error e => .error e
    | .ok subtypes =>
      if subtypes.any isListLikeTy ∧ ¬subtypes.any isNoneTy then
        .error ("unsupported union including container type: " ++ nm)
      else .ok (mkUnion subtypes)
  else evalTypeToken g nm

/-- Models the per-parameter annotation merge of `_merge_signatures`: the
two present annotations are put in a Python set (conflict iff both are
present and `==`-unequal), and the conflict message shows each side's
`__name__`. -/
def mergeAnn (paramNm : String) (inspAnn docAnn : Option Ty) : Except String (Option Ty) :=
  match inspAnn, docAnn with
  | some p, some d =>
    if pyTyEq p d then .ok (some p)
    else
      .error ("conflicting types found for parameter " ++ paramNm ++ ": " ++
        pyTyName p ++ ", " ++ pyTyName d)
  | some p, Option.none => .ok (some p)
  | Option.none, some d => .ok (some d)
  | Option.none, Option.none => .ok Option.none

/-- Models the `no type found` check at the top of `_populate_parser`'s
per-parameter loop (`if type_ is param.empty: raise ValueError(...)`). -/
def requireType (paramNm : String) (ann : Option Ty) : Except String Ty :=
  match ann with
  | some t => .ok t
  | Option.none => .error ("no type found for parameter " ++ paramNm)

/-! ### `_preprocess_inspect_signature` / `_preprocess_doc_signature` -/

/-- One parameter as the signature provider reports it: its name, whether it
has a default, whether that default is literally `None`, the raw annotation
(absent models `param.empty`) and the `typing.get_type_hints` entry (absent
models the `KeyError` path). -/
structure RawParam where
  nm : String
  hasDefault : Bool
  defaultIsNone : Bool
  ann : Option Ty
  hint : Option Ty

/-- One parameter of the enhanced signature (kind/default bookkeeping is the
external binder's concern and is not modelled). -/
structure SigParam where
  nm : String
  ann : Option Ty
  doc : Option String

/-- The `get_type_hints`-based annotation computed for one kept parameter of
`_preprocess_inspect_signature`: the hint entry if one exists, except that
`f(x: T = None)` keeps the bare `T` when the hint is exactly `Optional[T]`
(so a `None` default does not widen the accepted values). -/
def inspHintAnn (p : RawParam) : Option Ty :=
  match p.hint with
  | Option.none => Option.none
  | some h =>
    let h2 :=
      match p.ann with
      | some a =>
        if p.defaultIsNone ∧ ¬pyTyEq a h ∧ pyTyEq (mkUnion [a, .base .none]) h then a
        else h
      | Option.none => h
    some (getTypeFromHint h2)

/-- Models `_preprocess_inspect_signature`: a private (underscore-prefixed)
parameter without a default raises, a private parameter with a default is
skipped; every other parameter is kept with its `inspHintAnn` annotation. -/
def preprocessInspectSignature (funcNm : String) : List RawParam → Except String (List SigParam)
  | [] => .ok []
  | p :: rest =>
    if startsWithUnderscore p.nm then
      if ¬p.hasDefault then
        .error ("parameter " ++ p.nm ++ " of " ++ funcNm ++ " is private but has no default")
      else preprocessInspectSignature funcNm rest
    else do
      let rest2 ← preprocessInspectSignature funcNm rest
      .ok (⟨p.nm, inspHintAnn p, Option.none⟩ :: rest2)

/-- One parameter as `_parse_docstring` reports it: its name, the unparsed
declared type token (if any) and the parameter help text. -/
structure DocRawParam where
  nm : String
  annTok : Option String
  doc : Option String

/-- Models `_preprocess_doc_signature`: underscore-prefixed parameters are
skipped (unconditionally), and declared type tokens are resolved through
`_get_type_from_doc` against the function's globals. -/
def preprocessDocSignature (g : Namespace) : List DocRawParam → Except String (List SigParam)
  | [] => .ok []
  | p :: rest =>
    if startsWithUnderscore p.nm then preprocessDocSignature g rest
    else do
      let dAnn : Option Ty ←
        match p.annTok with
        | some tok => (getTypeFromDoc g tok).map some
        | Option.none => pure Option.none
      let rest2 ← preprocessDocSignature g rest
      .ok (⟨p.nm, dAnn, p.doc⟩ :: rest2)

/-! ### `Visitor.visit_field`: field-list extraction state -/

structure ParamEntry where
  par : Option String
  typ : Option String

structure VisitState where
  params : List (String × ParamEntry)
  raises : List String

def emptyVisitState : VisitState := ⟨[], []⟩

/-- Models `self.params[name]` on the visitor's `defaultdict(dict)`. -/
def lookupEntry (st : VisitState) (nm : String) : ParamEntry :=
  match st.params.find? (fun p => p.1 = nm) with
  | some p => p.2
  | Option.none => ⟨Option.none, Option.none⟩

def setEntryAux (nm : String) (e : ParamEntry) :
    List (String × ParamEntry) → List (String × ParamEntry)
  | [] => [(nm, e)]
  | (k, v) :: rest => if k = nm then (nm, e) :: rest else (k, v) :: setEntryAux nm e rest

def setEntry (st : VisitState) (nm : String) (e : ParamEntry) : VisitState :=
  { st with params := setEntryAux nm e st.params }

def paramTypeNames : List String := ["param", "parameter", "arg", "argument", "key", "keyword"]

def typeNames : List String := ["type", "kwtype"]

/-- Key membership `doctype in self.params[name]` for the per-name dict. -/
def hasKey (e : ParamEntry) (d : String) : Bool :=
  if d = "param" then e.par.isSome
  else if d = "type" then e.typ.isSome
  else false

/-- The two sequential synonym-canonicalization steps of `visit_field`. -/
def canonicalDoctype (doctype : String) : String :=
  let d1 := if doctype ∈ paramTypeNames then "param" else doctype
  if d1 ∈ typeNames then "type" else d1

/-- Models the tail of `Visitor.visit_field` shared by the two- and
three-part headers: canonicalize the doctype through the synonym tables,
raise on a duplicate `param`/`type` declaration for the same name, then
record the field body under the canonical doctype (or append the name to
`raises`; any other doctype stores nothing). -/
def fieldTail (st : VisitState) (doctype nm body : String) : Except String VisitState :=
  let d2 := canonicalDoctype doctype
  if d2 ∈ (["param", "type"] : List String) ∧ hasKey (lookupEntry st nm) d2 then
    .error (d2 ++ " defined twice for " ++ nm)
  else if d2 = "param" then
    .ok (setEntry st nm { lookupEntry st nm with par := some body })
  else if d2 = "type" then
    .ok (setEntry st nm { lookupEntry st nm with typ := some body })
  else if d2 = "raises" then
    .ok { st with raises := st.raises ++ [nm] }
  else .ok st

/-- Models `Visitor.visit_field`: the field-name node's text is split on
whitespace into two or three parts (other shapes are skipped via `SkipNode`,
modelled as an unchanged-state success); a three-part header must use a
`param` synonym, and records the inline type token first, rejecting a
duplicate.  `body` stands for the text the nested field-body visitor
produced. -/
def processFieldParts (st : VisitState) (parts : List String) (body : String) :
    Except String VisitState :=
  match parts with
  | [doctype, nm0] =>
    let nm := pyLstripStarNul nm0
    fieldTail st doctype nm body
  | [doctype, tyTok, nm0] =>
    let nm := pyLstripStarNul nm0
    if doctype ∉ paramTypeNames then .ok st
    else if (lookupEntry st nm).typ.isSome then .error ("type defined twice for " ++ nm)
    else fieldTail (setEntry st nm { lookupEntry st nm with typ := some tyTok }) doctype nm body
  | _ => .ok st

def processField (st : VisitState) (fieldNm body : String) : Except String VisitState :=
  processFieldParts st (pySplitWs fieldNm) body

/-! ### `Visitor.visit_enumerated_list`: enumerator generation -/

inductive EnumSeq where
  | arabic
  | loweralpha
  | upperalpha
  | lowerroman
  | upperroman

inductive EnumFmt where
  | parens
  | rparen
  | period

/-- Models the `{(prefix, suffix): fmt}` dictionary lookup at the top of
`visit_enumerated_list` (an unknown affix pair is a `KeyError`). -/
def fmtOfAffixes : String → String → Option EnumFmt
  | "(", ")" => some .parens
  | "", ")" => some .rparen
  | "", "." => some .period
  | _, _ => Option.none

def romanTable : List (Nat × String) :=
  [(1000, "m"), (900, "cm"), (500, "d"), (400, "cd"), (100, "c"), (90, "xc"),
   (50, "l"), (40, "xl"), (10, "x"), (9, "ix"), (5, "v"), (4, "iv"), (1, "i")]

def toRomanAux : Nat → Nat → List (Nat × String) → String
  | 0, _, _ => ""
  | _ + 1, _, [] => ""
  | fuel + 1, n, (v, sym) :: rest =>
    if v ≤ n ∧ 0 < v then sym ++ toRomanAux fuel (n - v) ((v, sym) :: rest)
    else toRomanAux fuel n rest

/-- Lower-case subtractive roman numeral (models `roman.toRoman(i).lower()`
for the in-range ordinals `1..4999`). -/
def toRomanLower (n : Nat) : String := toRomanAux (n + 14) n romanTable

/-- Models `docutils` `Body.make_enumerator(i, sequence, format)[0]` for
in-range ordinals: the ordinal rendered in the list's numbering system,
wrapped in the format's affixes, plus a trailing space. -/
def makeEnumeratorText (i : Nat) (seqKind : EnumSeq) (fmt : EnumFmt) : String :=
  let numeral : String :=
    match seqKind with
    | .arabic => natToStr i
    | .loweralpha => String.mk [Char.ofNat (96 + i)]
    | .upperalpha => String.mk [Char.ofNat (64 + i)]
    | .lowerroman => toRomanLower i
    | .upperroman => String.mk ((toRomanLower i).data.map Char.toUpper)
  match fmt with
  | .parens => "(" ++ numeral ++ ") "
  | .rparen => numeral ++ ") "
  | .period => numeral ++ ". "

/-- Models Python `str.ljust(width)`: pad on the right with spaces. -/
def ljust (s : String) (w : Nat) : String :=
  s ++ String.mk (List.replicate (w - s.length) ' ')

/-- Models `str.rjust(width)` (what a right-justified rendering would be). -/
def rjust (s : String) (w : Nat) : String :=
  String.mk (List.replicate (w - s.length) ' ') ++ s

/-- Models the marker construction in `Visitor.visit_enumerated_list`: one
enumerator per item for ordinals `start .. start+n-1`, each left-justified
(`ljust`) to the width of the widest enumerator of the list.  (The source's
`max(...)` faults on an empty list; the model returns `[]` there.) -/
def enumListMarkers (seqKind : EnumSeq) (fmt : EnumFmt) (start n : Nat) : List String :=
  let enumerators := (List.range n).map (fun k => makeEnumeratorText (start + k) seqKind fmt)
  let width := (enumerators.map String.length).foldl max 0
  enumerators.map (fun e => ljust e width)

/-! ### `_parse_docstring`: description assembly from visited blocks -/

/-- One entry of the visitor's parallel `start_lines`/`paragraphs` lists: a
rendered paragraph (or literal block, list item, ...) with its source start
line, or the comment placeholder token pushed by `visit_comment` (whose
start line is the node's reported line minus its internal newlines minus
one). -/
inductive DocBlock where
  | para (startLine : Nat) (text : String)
  | comment (startLine : Nat)

/-- Models the description-assembly loop at the end of `_parse_docstring`:
walk the block list, skip comment placeholders, and append each remaining
block's text followed by `'\n\n'`.  The `start`/`next_start` values bound by
the loop's `zip` are never used in its body. -/
def assemblePieces : List DocBlock → List String
  | [] => []
  | .comment _ :: rest => assemblePieces rest
  | .para _ t :: rest => t :: "\n\n" :: assemblePieces rest

def assembleDoc (blocks : List DocBlock) : String := String.join (assemblePieces blocks)

def blockStart : DocBlock → Nat
  | .para s _ => s
  | .comment s => s

/-- Modelled from the spec's words for the claim under test (this is NOT what
the source does): separate successive blocks by a gap of
`next_start - start - (the block's internal newline count)` newline
characters (zero for the last block, negative clamped to zero), skipping
comment placeholders from the output but keeping their line numbers in the
gap arithmetic. -/
def assembleDocSpecGap : List DocBlock → String
  | [] => ""
  | b :: rest =>
    let nextStart := match rest with
      | [] => 0
      | b2 :: _ => blockStart b2
    match b with
    | .comment _ => assembleDocSpecGap rest
    | .para s t =>
      t ++ String.mk (List.replicate (nextStart - s - t.data.count '\n') '\n') ++
        assembleDocSpecGap rest

/-! ### Shared helper lemmas -/

theorem exceptBindOk {α β : Type} (a : α) (f : α → Except String β) :
    (Except.ok a >>= f : Except String β) = f a := rfl

theorem exceptBindErr {α β : Type} (e : String) (f : α → Except String β) :
    (Except.error e >>= f : Except String β) = .error e := rfl

theorem strJoinFoldl (l : List String) :
    ∀ a : String, l.foldl (fun r s => r ++ s) a = a ++ l.foldl (fun r s => r ++ s) "" := by
  induction l with
  | nil => intro a; simp
  | cons x xs ih =>
    intro a
    simp only [List.foldl]
    rw [ih (a ++ x), ih ("" ++ x)]
    simp [String.append_assoc]

theorem strJoinCons (a : String) (l : List String) :
    String.join (a :: l) = a ++ String.join l := by
  simp only [String.join, List.foldl]
  rw [strJoinFoldl l ("" ++ a)]
  simp

theorem foldlMaxInitLe (l : List Nat) : ∀ a : Nat, a ≤ l.foldl max a := by
  induction l with
  | nil => intro a; simp
  | cons x xs ih => intro a; exact le_trans (le_max_left a x) (ih (max a x))

theorem memLeFoldlMax (l : List Nat) :
    ∀ a : Nat, ∀ x ∈ l, x ≤ l.foldl max a := by
  induction l with
  | nil => intro a x hx; cases hx
  | cons y ys ih =>
    intro a x hx
    rcases List.mem_cons.mp hx with h | h
    · subst h
      exact le_trans (le_max_right a x) (foldlMaxInitLe ys (max a x))
    · exact ih (max a y) x h

/-! ### Claim C5: the boolean parser -/

/-- Claim C5: `_parse_bool` returns `True` exactly when the input lower-cases
to one of `t`, `true`, `1`, returns `False` exactly when it lower-cases to
one of `f`, `false`, `0`, and fails with an error on every other string. -/
theorem parseBool_spec (s : String) :
    (parseBool s = .ok true ↔ pyLower s ∈ (["t", "true", "1"] : List String)) ∧
    (parseBool s = .ok false ↔ pyLower s ∈ (["f", "false", "0"] : List String)) ∧
    ((∃ e, parseBool s = .error e) ↔
      pyLower s ∉ (["t", "true", "1"] : List String) ∧
      pyLower s ∉ (["f", "false", "0"] : List String)) := by
  have hdisj :
      ¬(pyLower s ∈ (["t", "true", "1"] : List String) ∧
        pyLower s ∈ (["f", "false", "0"] : List String)) := by
    rintro ⟨h1, h2⟩
    simp only [List.mem_cons, List.not_mem_nil, or_false] at h1 h2
    rcases h1 with h1 | h1 | h1 <;> rcases h2 with h2 | h2 | h2 <;>
      (rw [h1] at h2; exact absurd h2 (by decide))
  unfold parseBool
  by_cases h1 : pyLower s ∈ (["t", "true", "1"] : List String)
  · have h2 : pyLower s ∉ (["f", "false", "0"] : List String) := fun hm => hdisj ⟨h1, hm⟩
    simp [h1, h2]
  · by_cases h2 : pyLower s ∈ (["f", "false", "0"] : List String)
    · simp [h1, h2]
    · simp [h1, h2]

/-! ### Claim C4: description assembly -/

def isCommentBlock : DocBlock → Bool
  | .comment _ => true
  | .para _ _ => false

def blockText : DocBlock → String
  | .para _ t => t
  | .comment _ => ""

/-- Claim C4 counterexample: with two paragraphs on source lines 1 and 5, the
spec's line-number-gap reconstruction would put four newlines between them,
but `_parse_docstring` separates them with exactly one blank line (and
appends one after the last block), ignoring the recorded line numbers. -/
theorem assembleDoc_gap_counterexample :
    assembleDoc [DocBlock.para 1 "a", DocBlock.para 5 "b"] = "a\n\nb\n\n" ∧
    assembleDocSpecGap [DocBlock.para 1 "a", DocBlock.para 5 "b"] = "a\n\n\n\nb" ∧
    assembleDoc [DocBlock.para 1 "a", DocBlock.para 5 "b"] ≠
      assembleDocSpecGap [DocBlock.para 1 "a", DocBlock.para 5 "b"] := by
  refine ⟨rfl, rfl, ?_⟩
  decide

/-- Claim C4 (amended): the assembled description separates successive
non-comment blocks with exactly one blank line (each block's text is emitted
followed by `"\n\n"`), regardless of the blocks' source line numbers, and a
skipped comment block contributes nothing at all. -/
theorem assembleDoc_const_gap (blocks : List DocBlock) (startLine : Nat) (t : String) :
    assembleDoc (DocBlock.comment startLine :: blocks) = assembleDoc blocks ∧
    assembleDoc (DocBlock.para startLine t :: blocks) =
      t ++ ("\n\n" ++ assembleDoc blocks) := by
  constructor
  · rfl
  · show String.join (t :: "\n\n" :: assemblePieces blocks) = _
    rw [strJoinCons, strJoinCons]
    rfl

/-! ### Claim C7: enumerated-list markers -/

def enumWidth (seqKind : EnumSeq) (fmt : EnumFmt) (start n : Nat) : Nat :=
  (((List.range n).map (fun k => makeEnumeratorText (start + k) seqKind fmt)).map
    String.length).foldl max 0

/-- Claim C7 counterexample: for a lower-roman `period` list of three items
starting at 1, the markers are left-justified — the first is `"i.   "`
(padded on the right to the widest width 5), not the right-justified
`"  i. "`. -/
theorem enumListMarkers_counterexample :
    enumListMarkers .lowerroman .period 1 3 = ["i.   ", "ii.  ", "iii. "] ∧
    rjust (makeEnumeratorText 1 .lowerroman .period) 5 = "  i. " ∧
    (enumListMarkers .lowerroman .period 1 3)[0]? ≠
      some (rjust (makeEnumeratorText 1 .lowerroman .period) 5) := by
  refine ⟨rfl, rfl, ?_⟩
  decide

/-- Claim C7 (amended): every marker produced by `visit_enumerated_list` is
the enumerator computed from the list's numbering system, format and start
value, left-justified (right-padded with spaces, `str.ljust`) to the width
of the widest enumerator in that list; consequently all markers of one list
have that same width. -/
theorem enumListMarkers_spec (seqKind : EnumSeq) (fmt : EnumFmt) (start n i : Nat)
    (hi : i < n) :
    (enumListMarkers seqKind fmt start n).length = n ∧
    (enumListMarkers seqKind fmt start n)[i]? =
      some (ljust (makeEnumeratorText (start + i) seqKind fmt)
        (enumWidth seqKind fmt start n)) ∧
    ∀ m ∈ enumListMarkers seqKind fmt start n,
      m.length = enumWidth seqKind fmt start n := by
  refine ⟨by simp [enumListMarkers], ?_, ?_⟩
  · simp [enumListMarkers, enumWidth, List.getElem?_map, List.getElem?_range hi]
  · intro m hm
    simp only [enumListMarkers, List.mem_map] at hm
    obtain ⟨e, he, hme⟩ := hm
    subst hme
    have hle : e.length ≤ enumWidth seqKind fmt start n := by
      apply memLeFoldlMax
      simp only [List.mem_map]
      exact ⟨e, he, rfl⟩
    show (e ++ String.mk (List.replicate (enumWidth seqKind fmt start n - e.length) ' ')).length = _
    rw [String.length_append]
    show e.length + (List.replicate (enumWidth seqKind fmt start n - e.length) ' ').length = _
    rw [List.length_replicate]
    omega

/-- Witness for the amended C7 theorem at a concrete list: arabic `rparen`
numbering starting at 9 with two items gives markers `"9) "` and `"10) "`
left-justified to width 4. -/
theorem enumListMarkers_spec_witness :
    (enumListMarkers .arabic .rparen 9 2).length = 2 ∧
    (enumListMarkers .arabic .rparen 9 2)[0]? =
      some (ljust (makeEnumeratorText 9 .arabic .rparen) (enumWidth .arabic .rparen 9 2)) ∧
    (enumListMarkers .arabic .rparen 9 2)[0]? = some "9)  " := by
  have h := enumListMarkers_spec .arabic .rparen 9 2 0 (by decide)
  exact ⟨h.1, h.2.1, by rw [h.2.1]; rfl⟩

/-! ### Claim C8: duplicate field declarations -/

/-- Claim C8 counterexample: declaring the same `(raises, ValueError)` field
pair twice is not an error — the name is simply appended to `raises` again. -/
theorem processField_raises_dup_counterexample :
    processField emptyVisitState "raises ValueError" "" =
      .ok ⟨[], ["ValueError"]⟩ ∧
    processField ⟨[], ["ValueError"]⟩ "raises ValueError" "" =
      .ok ⟨[], ["ValueError", "ValueError"]⟩ := by
  exact ⟨rfl, rfl⟩

/-- Claim C8 (amended): declaring the same `(doctype, name)` field pair twice
is a hard error exactly for the doctypes that canonicalize (through the
synonym tables) to `param` or `type` — including the inline type of a
three-part `param`-synonym header; doctypes outside those sets (such as
`raises`) may repeat freely. -/
theorem processFieldParts_dup (st : VisitState) (doctype nm0 tyTok body : String) :
    (canonicalDoctype doctype = "param" →
      (lookupEntry st (pyLstripStarNul nm0)).par.isSome = true →
      ∃ e, processFieldParts st [doctype, nm0] body = .error e) ∧
    (canonicalDoctype doctype = "type" →
      (lookupEntry st (pyLstripStarNul nm0)).typ.isSome = true →
      ∃ e, processFieldParts st [doctype, nm0] body = .error e) ∧
    (doctype ∈ paramTypeNames →
      (lookupEntry st (pyLstripStarNul nm0)).typ.isSome = true →
      ∃ e, processFieldParts st [doctype, tyTok, nm0] body = .error e) := by
  refine ⟨?_, ?_, ?_⟩
  · intro hc hdup
    simp only [processFieldParts, fieldTail, hc]
    rw [if_pos]
    · exact ⟨_, rfl⟩
    · exact ⟨by simp, by simp [hasKey, hdup]⟩
  · intro hc hdup
    simp only [processFieldParts, fieldTail, hc]
    rw [if_pos]
    · exact ⟨_, rfl⟩
    · exact ⟨by simp, by simp [hasKey, hdup]⟩
  · intro hmem hdup
    simp only [processFieldParts]
    rw [if_neg (by simp [hmem]), if_pos hdup]
    exact ⟨_, rfl⟩

/-- Witness for the amended C8 theorem: a second `param`-synonym declaration
(`arg`) for a name whose `param` text is already recorded is an error. -/
theorem processFieldParts_dup_witness :
    ∃ e,
      processFieldParts ⟨[("x", ⟨some "old", Option.none⟩)], []⟩ ["arg", "x"] "new" =
        .error e := by
  exact
    (processFieldParts_dup ⟨[("x", ⟨some "old", Option.none⟩)], []⟩ "arg" "x" "t" "new").1
      (by rfl) (by rfl)

/-! ### Claim C2: docstring/structural type reconciliation -/

def gC2 : Namespace := fun tok =>
  if tok = "builtins.int" then some (.base .int) else Option.none

/-- Claim C2 counterexample: the docstring type spelling `builtins.int`
resolves (through the namespace provider) to `int`; conflicting with a
structural `str`, the error message quotes the reduced `__name__`s (`str`,
`int`) but does not contain the original docstring spelling
`builtins.int`. -/
theorem mergeAnn_spelling_counterexample :
    getTypeFromDoc gC2 "builtins.int" = .ok (.base .int) ∧
    ∃ e, mergeAnn "x" (some (.base .str)) (some (.base .int)) = .error e ∧
      ¬("builtins.int".data <:+: e.data) := by
  refine ⟨rfl, "conflicting types found for parameter x: str, int", rfl, ?_⟩
  decide

/-- Claim C2 (amended): if both a docstring-declared and a structural type
are present they must reduce to Python-equal descriptors, else the merge
fails with a message containing both reduced types' `__name__`s (which equal
the original spellings only when those are plain class names); if exactly
one is present it is used; if neither is present the merge keeps no
annotation and `_populate_parser`'s check then fails with a "no type found"
error. -/
theorem mergeAnn_spec (paramNm : String) (p d : Ty) :
    (pyTyEq p d = true → mergeAnn paramNm (some p) (some d) = .ok (some p)) ∧
    (pyTyEq p d = false →
      ∃ e, mergeAnn paramNm (some p) (some d) = .error e ∧
        (pyTyName p).data <:+: e.data ∧ (pyTyName d).data <:+: e.data) ∧
    mergeAnn paramNm (some p) Option.none = .ok (some p) ∧
    mergeAnn paramNm Option.none (some d) = .ok (some d) ∧
    mergeAnn paramNm Option.none Option.none = .ok Option.none ∧
    ∃ e, requireType paramNm Option.none = .error e ∧
      "no type found".data <:+: e.data := by
  refine ⟨fun h => by simp [mergeAnn, h], fun h => ?_, rfl, rfl, rfl, ?_⟩
  · refine ⟨"conflicting types found for parameter " ++ paramNm ++ ": " ++
      pyTyName p ++ ", " ++ pyTyName d, by simp [mergeAnn, h], ?_, ?_⟩
    · refine ⟨("conflicting types found for parameter " ++ paramNm ++ ": ").data,
        (", " ++ pyTyName d).data, ?_⟩
      simp [String.data_append]
    · refine ⟨("conflicting types found for parameter " ++ paramNm ++ ": " ++
        pyTyName p ++ ", ").data, [], ?_⟩
      simp [String.data_append]
  · refine ⟨"no type found for parameter " ++ paramNm, rfl, [],
      (" for parameter " ++ paramNm).data, ?_⟩
    simp [String.data_append]

/-- Witness for the amended C2 theorem at concrete types: equal reductions
merge to the common type; `str` vs `int` fails with a message containing
both names. -/
theorem mergeAnn_spec_witness :
    (mergeAnn "y" (some (.base .int)) (some (.base .int)) = .ok (some (.base .int))) ∧
    (∃ e, mergeAnn "y" (some (.base .str)) (some (.base .int)) = .error e ∧
      (pyTyName (.base .str)).data <:+: e.data ∧
      (pyTyName (.base .int)).data <:+: e.data) := by
  constructor
  · exact (mergeAnn_spec "y" (.base .int) (.base .int)).1 rfl
  · exact (mergeAnn_spec "y" (.base .str) (.base .int)).2.1 rfl

/-! ### Claim C10: private (underscore-prefixed) parameters -/

/-- The declared type token of a docstring parameter resolves (used to state
the doc-side preprocessing result; an absent token resolves vacuously). -/
def docAnnResolves (g : Namespace) (p : DocRawParam) : Prop :=
  ∀ tok, p.annTok = some tok → ∃ t, getTypeFromDoc g tok = .ok t

/-- Claim C10: the enhanced-signature preprocessing excludes every
underscore-prefixed parameter that has a default from the produced parameter
list (on both the signature and the docstring side), and raises an error —
rather than excluding the parameter — whenever an underscore-prefixed
signature parameter has no default. -/
theorem privateParams_spec (funcNm : String) (g : Namespace)
    (ps : List RawParam) (dps : List DocRawParam) :
    ((∀ p ∈ ps, startsWithUnderscore p.nm = true → p.hasDefault = true) →
      ∃ out, preprocessInspectSignature funcNm ps = .ok out ∧
        out.map (fun q => q.nm) =
          (ps.filter (fun p => !startsWithUnderscore p.nm)).map (fun p => p.nm)) ∧
    (∀ p ∈ ps, startsWithUnderscore p.nm = true → p.hasDefault = false →
      ∃ e, preprocessInspectSignature funcNm ps = .error e) ∧
    ((∀ p ∈ dps, startsWithUnderscore p.nm = false → docAnnResolves g p) →
      ∃ out, preprocessDocSignature g dps = .ok out ∧
        out.map (fun q => q.nm) =
          (dps.filter (fun p => !startsWithUnderscore p.nm)).map (fun p => p.nm)) := by
  refine ⟨?_, ?_, ?_⟩
  · intro hall
    induction ps with
    | nil => exact ⟨[], rfl, rfl⟩
    | cons p rest ih =>
      obtain ⟨out, hout, hnames⟩ :=
        ih (fun q hq h => hall q (List.mem_cons_of_mem _ hq) h)
      by_cases hu : startsWithUnderscore p.nm = true
      · have hd : p.hasDefault = true := hall p (List.mem_cons_self _ _) hu
        exact ⟨out, by simp [preprocessInspectSignature, hu, hd, hout],
          by simp [hu, hnames]⟩
      · simp only [Bool.not_eq_true] at hu
        refine ⟨⟨p.nm, inspHintAnn p, Option.none⟩ :: out, ?_, ?_⟩
        · simp [preprocessInspectSignature, hu, hout, exceptBindOk]
        · simp [hu, hnames]
  · intro p hp hu hd
    induction ps with
    | nil => cases hp
    | cons q rest ih =>
      rcases List.mem_cons.mp hp with h | h
      · subst h
        exact ⟨"parameter " ++ p.nm ++ " of " ++ funcNm ++ " is private but has no default",
          by simp [preprocessInspectSignature, hu, hd]⟩
      · by_cases hqu : startsWithUnderscore q.nm = true
        · by_cases hqd : q.hasDefault = true
          · obtain ⟨e, he⟩ := ih h
            exact ⟨e, by simp [preprocessInspectSignature, hqu, hqd, he]⟩
          · simp only [Bool.not_eq_true] at hqd
            exact ⟨"parameter " ++ q.nm ++ " of " ++ funcNm ++ " is private but has no default",
              by simp [preprocessInspectSignature, hqu, hqd]⟩
        · simp only [Bool.not_eq_true] at hqu
          obtain ⟨e, he⟩ := ih h
          exact ⟨e, by simp [preprocessInspectSignature, hqu, he, exceptBindErr]⟩
  · intro hres
    induction dps with
    | nil => exact ⟨[], rfl, rfl⟩
    | cons p rest ih =>
      obtain ⟨out, hout, hnames⟩ :=
        ih (fun q hq h => hres q (List.mem_cons_of_mem _ hq) h)
      by_cases hu : startsWithUnderscore p.nm = true
      · exact ⟨out, by simp [preprocessDocSignature, hu, hout], by simp [hu, hnames]⟩
      · simp only [Bool.not_eq_true] at hu
        cases htok : p.annTok with
        | none =>
          refine ⟨⟨p.nm, Option.none, p.doc⟩ :: out, ?_, ?_⟩
          · simp [preprocessDocSignature, hu, htok, hout, exceptBindOk]
          · simp [hu, hnames]
        | some tok =>
          obtain ⟨t, ht⟩ := hres p (List.mem_cons_self _ _) hu tok htok
          refine ⟨⟨p.nm, some t, p.doc⟩ :: out, ?_, ?_⟩
          · simp [preprocessDocSignature, hu, htok, ht, hout, exceptBindOk, Except.map]
          · simp [hu, hnames]

def gEmptyNs : Namespace := fun _ => Option.none

/-- Witness for C10 at concrete parameter lists: `_a` (with default) is
dropped, `b` is kept; `_c` without a default is an error; the doc side drops
`_d` and keeps `e`. -/
theorem privateParams_spec_witness :
    (∃ out, preprocessInspectSignature "f"
        [⟨"_a", true, false, Option.none, Option.none⟩,
         ⟨"b", false, false, Option.none, some (.base .int)⟩] = .ok out ∧
      out.map (fun q => q.nm) = ["b"]) ∧
    (∃ e, preprocessInspectSignature "f"
        [⟨"_c", false, false, Option.none, Option.none⟩] = .error e) ∧
    (∃ out, preprocessDocSignature gEmptyNs
        [⟨"_d", Option.none, some "x"⟩, ⟨"e", Option.none, some "y"⟩] = .ok out ∧
      out.map (fun q => q.nm) = ["e"]) := by
  have h := privateParams_spec "f" gEmptyNs
    [⟨"_a", true, false, Option.none, Option.none⟩,
     ⟨"b", false, false, Option.none, some (.base .int)⟩]
    [⟨"_d", Option.none, some "x"⟩, ⟨"e", Option.none, some "y"⟩]
  have h2 := privateParams_spec "f" gEmptyNs
    [⟨"_c", false, false, Option.none, Option.none⟩] []
  refine ⟨?_, ?_, ?_⟩
  · obtain ⟨out, h1, hn⟩ := h.1 (by decide)
    exact ⟨out, h1, by rw [hn]; rfl⟩
  · exact h2.2.1 ⟨"_c", false, false, Option.none, Option.none⟩ (by simp) rfl rfl
  · obtain ⟨out, h1, hn⟩ := h.2.2 (by
      intro p hp hne tok htok
      rcases List.mem_cons.mp hp with hh | hh
      · subst hh; cases htok
      · rcases List.mem_cons.mp hh with hh | hh
        · subst hh; cases htok
        · cases hh)
    exact ⟨out, h1, by rw [hn]; rfl⟩

/-! ### Claim C3: unions containing container-shaped members -/

def tblEmpty : Table := fun _ => Option.none

def gC3 : Namespace := fun tok =>
  if tok = "list[int]" then some (.base (.list .int))
  else if tok = "None" then some (.base .none)
  else if tok = "str" then some (.base .str)
  else Option.none

/-- Claim C3 counterexample: `list[int] or None` — a union whose member set
contains a container — passes the doc-side gate (because `None` is a member)
and then resolves to a parser specification (`nargs='*'`) instead of failing
before parser synthesis. -/
theorem unionContainer_counterexample :
    getTypeFromDoc gC3 "list[int] or None" = .ok (.union [.list .int, .none]) ∧
    ∃ spec, synthesizeArg tblEmpty (.union [.list .int, .none]) = .ok spec ∧
      spec.nargs = some .star := by
  exact ⟨rfl, ⟨_, rfl, rfl⟩⟩

/-- Claim C3 (amended): a union containing a container-shaped member never
reaches `_get_parser` as a union, but it does not always fail: the doc-side
gate rejects a `' or '` token with a list-like member only when no `None`
member accompanies it, and `_populate_parser` rejects the union only when it
has other than exactly one non-`None` member — with exactly one, the union is
replaced by that single container member before synthesis continues. -/
theorem unionContainer_gate (tbl : Table) (args : List STy) (g : Namespace) (nm : String)
    (hc : args.any isContainerS = true) :
    ((args.filter (fun a => !isNoneSTy a)).length ≠ 1 →
      ∃ e, synthesizeArg tbl (.union args) = .error e) ∧
    (∀ c, args.filter (fun a => !isNoneSTy a) = [c] →
      synthesizeArg tbl (.union args) = synthCore tbl args (.base c)) ∧
    (∀ subtypes, (pySplitOr nm).length > 1 →
      exceptMapList (evalTypeToken g) (pySplitOr nm) = .ok subtypes →
      subtypes.any isListLikeTy = true → subtypes.any isNoneTy = false →
      ∃ e, getTypeFromDoc g nm = .error e) := by
  refine ⟨?_, ?_, ?_⟩
  · intro hlen
    unfold synthesizeArg
    simp only [hc, if_true]
    rcases hfil : args.filter (fun a => !isNoneSTy a) with _ | ⟨c, _ | ⟨d, rest⟩⟩
    · exact ⟨"unsupported union including container type: " ++ pyTyName (.union args), rfl⟩
    · exact absurd (by rw [hfil]; rfl) hlen
    · exact ⟨"unsupported union including container type: " ++ pyTyName (.union args), rfl⟩
  · intro c hfil
    unfold synthesizeArg
    simp only [hc, if_true]
    rw [hfil]
  · intro subtypes hlen hmap hl hn
    refine ⟨"unsupported union including container type: " ++ nm, ?_⟩
    unfold getTypeFromDoc
    rw [if_pos hlen, hmap]
    show (if subtypes.any isListLikeTy ∧ ¬subtypes.any isNoneTy then
        (Except.error ("unsupported union including container type: " ++ nm) : Except String Ty)
      else .ok (mkUnion subtypes)) = _
    rw [if_pos ⟨hl, by simp [hn]⟩]

/-- Witness for the amended C3 theorem: two non-`None` container members fail
resolution; an optional container reduces to the container member; a doc
union of a container with a non-`None` member fails the doc gate. -/
theorem unionContainer_gate_witness :
    (∃ e, synthesizeArg tblEmpty (.union [.list .int, .list .str]) = .error e) ∧
    synthesizeArg tblEmpty (.union [.list .int, .none]) =
      synthCore tblEmpty [.list .int, .none] (.base (.list .int)) ∧
    (∃ e, getTypeFromDoc gC3 "list[int] or str" = .error e) := by
  refine ⟨?_, ?_, ?_⟩
  · exact (unionContainer_gate tblEmpty [.list .int, .list .str] gC3 "x" rfl).1 (by decide)
  · exact (unionContainer_gate tblEmpty [.list .int, .none] gC3 "x" rfl).2.1 (.list .int) rfl
  · exact (unionContainer_gate tblEmpty [.list .int] gC3 "list[int] or str" rfl).2.2
      [.base (.list .int), .base .str] (by decide) rfl rfl rfl

/-! ### Claim C6: tuple and container arity -/

def isScalarShape : STy → Bool
  | .list _ => false
  | .tup _ => false
  | .vtup _ => false
  | .record _ _ => false
  | _ => true

/-- On a scalar-shaped element, the container branch of `_populate_parser`
reduces to `nargs='*'` with the element's parser as the per-token `type`. -/
theorem synthListScalar (tbl : Table) (e : STy) (hscal : isScalarShape e = true) :
    synthesizeArg tbl (.base (.list e)) =
      match getParserS tbl e with
      | .error er => .error er
      | .ok p => .ok ⟨some .star, .perToken p.run⟩ := by
  cases e <;> first
    | rfl
    | simp [isScalarShape] at hscal

theorem mapPairMapM (f : String → Except String Value) (l : List String) :
    exceptMapList (fun pv : (String → Except String Value) × String => pv.1 pv.2)
      (l.map (fun v => (f, v))) = exceptMapList f l := by
  induction l with
  | nil => rfl
  | cons x xs ih => simp only [List.map_cons, exceptMapList, ih]

theorem applyStarPerToken (p : PParser) (tokens : List String) :
    applyArgSpec ⟨some .star, .perToken p.run⟩ tokens =
      match exceptMapList p.run tokens with
      | .ok vs => .ok (.vlist vs)
      | .error er => .error er := rfl

theorem applyStarVarTuple (p : PParser) (tokens : List String) :
    applyArgSpec ⟨some .star, .wholeAction (storeTupleRun .vtuple Option.none
        (fun vs => vs.map (fun v => (p.run, v))))⟩ tokens =
      match exceptMapList p.run tokens with
      | .ok vs => .ok (.vtuple vs)
      | .error er => .error er := by
  show (match exceptMapList (fun pv => pv.1 pv.2) (tokens.map (fun v => (p.run, v))) with
    | .ok vs => (.ok (.vtuple vs) : Except String Value)
    | .error e => .error e) = _
  rw [mapPairMapM]

theorem applyExactWhole (n : Nat) (f : List String → Except String Value)
    (tokens : List String) :
    applyArgSpec ⟨some (.exact n), .wholeAction f⟩ tokens =
      if tokens.length = n then f tokens else .error "wrong number of arguments" := by
  unfold applyArgSpec
  by_cases h : tokens.length = n
  · simp [h]
  · simp [h]

/-- Claim C6: a fixed-arity tuple of `n` element types synthesizes with
`nargs = n`, so exactly `n` tokens are accepted and every other count is
rejected, and the member parsers are applied positionally (zipped with the
tokens); a variadic tuple synthesizes with `nargs='*'` and applies its one
element parser to every token; a container with a scalar-shaped element does
the same, collecting a list.  (A container whose element is itself tuple- or
container-shaped falls outside the spec's one-level data model and is
excluded by `isScalarShape`.) -/
theorem tupleArity_spec (tbl : Table) :
    (∀ es spec, synthesizeArg tbl (.base (.tup es)) = .ok spec →
      spec.nargs = some (.exact es.length) ∧
      ∃ ps, exceptMapList (getParserS tbl) es = .ok ps ∧
        ∀ tokens,
          (tokens.length ≠ es.length → ∃ er, applyArgSpec spec tokens = .error er) ∧
          (tokens.length = es.length →
            applyArgSpec spec tokens =
              match exceptMapList (fun pv : (String → Except String Value) × String => pv.1 pv.2)
                  ((ps.map (fun p => p.run)).zip tokens) with
              | .ok vs => .ok (.vtuple vs)
              | .error er => .error er)) ∧
    (∀ e spec, synthesizeArg tbl (.base (.vtup e)) = .ok spec →
      spec.nargs = some .star ∧
      ∃ p, getParserS tbl e = .ok p ∧
        ∀ tokens, applyArgSpec spec tokens =
          match exceptMapList p.run tokens with
          | .ok vs => .ok (.vtuple vs)
          | .error er => .error er) ∧
    (∀ e spec, isScalarShape e = true →
      synthesizeArg tbl (.base (.list e)) = .ok spec →
      spec.nargs = some .star ∧
      ∃ p, getParserS tbl e = .ok p ∧
        ∀ tokens, applyArgSpec spec tokens =
          match exceptMapList p.run tokens with
          | .ok vs => .ok (.vlist vs)
          | .error er => .error er) := by
  refine ⟨?_, ?_, ?_⟩
  · intro es spec hok
    have hred : synthesizeArg tbl (.base (.tup es)) =
        match exceptMapList (getParserS tbl) es with
        | .error e => .error e
        | .ok ps => .ok ⟨some (.exact es.length),
            .wholeAction (storeTupleRun .vtuple Option.none
              (fun vs => (ps.map (fun p => p.run)).zip vs))⟩ := rfl
    rw [hred] at hok
    cases hps : exceptMapList (getParserS tbl) es with
    | error e => rw [hps] at hok; cases hok
    | ok ps =>
      rw [hps] at hok
      injection hok with h
      subst h
      refine ⟨rfl, ps, rfl, ?_⟩
      intro tokens
      constructor
      · intro hne
        exact ⟨"wrong number of arguments", by rw [applyExactWhole, if_neg hne]⟩
      · intro heq
        rw [applyExactWhole, if_pos heq]
        rfl
  · intro e spec hok
    have hred : synthesizeArg tbl (.base (.vtup e)) =
        match getParserS tbl e with
        | .error er => .error er
        | .ok p => .ok ⟨some .star, .wholeAction (storeTupleRun .vtuple Option.none
            (fun vs => vs.map (fun v => (p.run, v))))⟩ := rfl
    rw [hred] at hok
    cases hp : getParserS tbl e with
    | error er => rw [hp] at hok; cases hok
    | ok p =>
      rw [hp] at hok
      injection hok with h
      subst h
      exact ⟨rfl, p, rfl, fun tokens => applyStarVarTuple p tokens⟩
  · intro e spec hscal hok
    rw [synthListScalar tbl e hscal] at hok
    cases hp : getParserS tbl e with
    | error er => rw [hp] at hok; cases hok
    | ok p =>
      rw [hp] at hok
      injection hok with h
      subst h
      exact ⟨rfl, p, rfl, fun tokens => applyStarPerToken p tokens⟩

/-- Witness for C6 at concrete types: `tuple[int, str]` requires exactly two
tokens (one token is an arity error; `("1", "x")` parses positionally) and
`list[int]` accepts zero or three tokens. -/
theorem tupleArity_spec_witness :
    (∃ spec, synthesizeArg tblEmpty (.base (.tup [.int, .str])) = .ok spec ∧
      spec.nargs = some (.exact 2) ∧
      (∃ er, applyArgSpec spec ["1"] = .error er) ∧
      applyArgSpec spec ["1", "x"] = .ok (.vtuple [.vint 1, .vstr "x"])) ∧
    (∃ spec, synthesizeArg tblEmpty (.base (.list .int)) = .ok spec ∧
      spec.nargs = some .star ∧
      applyArgSpec spec [] = .ok (.vlist []) ∧
      applyArgSpec spec ["1", "2", "3"] = .ok (.vlist [.vint 1, .vint 2, .vint 3])) := by
  constructor
  · obtain ⟨hn, ps, hps, hall⟩ := (tupleArity_spec tblEmpty).1 [.int, .str] _ rfl
    have h0 : exceptMapList (getParserS tblEmpty) [STy.int, STy.str] =
        .ok [⟨fun s => (pyParseInt s).map Value.vint, false, "int"⟩,
             ⟨fun s => .ok (.vstr s), true, "str"⟩] := rfl
    rw [h0] at hps
    injection hps with hps2
    subst hps2
    refine ⟨_, rfl, hn, (hall ["1"]).1 (by decide), ?_⟩
    rw [(hall ["1", "x"]).2 rfl]
    rfl
  · obtain ⟨hn, p, hp, happ⟩ := (tupleArity_spec tblEmpty).2.2 .int _ rfl rfl
    have h0 : getParserS tblEmpty STy.int =
        .ok ⟨fun s => (pyParseInt s).map Value.vint, false, "int"⟩ := rfl
    rw [h0] at hp
    injection hp with hp2
    subst hp2
    refine ⟨_, rfl, hn, ?_, ?_⟩
    · rw [happ []]
      rfl
    · rw [happ ["1", "2", "3"]]
      rfl

/-! ### Claims C1 and C9: union parser synthesis -/

/-- A parser that `_get_parser` returns with the str/path-passthrough shape
never fails (this is what justifies the union branch's short-circuit). -/
theorem passthroughInfallible (tbl : Table) (t : STy) (p : PParser)
    (h : getParserS tbl t = .ok p) (hp : p.passthrough = true) (s : String) :
    ∃ v, p.run s = .ok v := by
  unfold getParserS at h
  cases htb : tbl (.base t) with
  | some f =>
    rw [htb] at h
    injection h with h2
    subst h2
    cases hp
  | none =>
    rw [htb] at h
    cases t with
    | str =>
      injection h with h2
      subst h2
      exact ⟨.vstr s, rfl⟩
    | path =>
      injection h with h2
      subst h2
      exact ⟨.vpath s, rfl⟩
    | int => injection h with h2; subst h2; cases hp
    | float => injection h with h2; subst h2; cases hp
    | bool => injection h with h2; subst h2; cases hp
    | none => injection h with h2; subst h2; cases hp
    | custom nm c =>
      cases c with
      | true => injection h with h2; subst h2; cases hp
      | false => cases h
    | list e => cases h
    | tup es => cases h
    | vtup e => cases h
    | record nm fs => cases h

/-- If every member before `m` (in the built order) rejects `s` and `m`
accepts it with `v`, the union's try-each-in-order application returns `v`. -/
theorem tryParsersFirst (tbl : Table) (unm : String) (s : String) (v : Value) :
    ∀ (pre : List STy) (m : STy) (post : List STy) (ps : List PParser),
      buildMembers tbl (pre ++ m :: post) = .ok ps →
      (∀ a ∈ pre, ∀ pa, getParserS tbl a = .ok pa → ∃ e, pa.run s = .error e) →
      (∃ pm, getParserS tbl m = .ok pm ∧ pm.run s = .ok v) →
      tryParsers unm ps s = .ok v := by
  intro pre
  induction pre with
  | nil =>
    intro m post ps hb hrej hm
    obtain ⟨pm, hpm, hrun⟩ := hm
    rw [List.nil_append] at hb
    rw [show buildMembers tbl (m :: post) = match getParserS tbl m with
      | .error e => .error e
      | .ok p => if p.passthrough then .ok [p]
          else match buildMembers tbl post with
            | .ok ps2 => .ok (p :: ps2)
            | .error e => .error e from rfl] at hb
    rw [hpm] at hb
    replace hb : (if pm.passthrough = true then Except.ok [pm]
        else match buildMembers tbl post with
          | .ok ps2 => Except.ok (pm :: ps2)
          | .error e => Except.error e) = Except.ok ps := hb
    by_cases hpass : pm.passthrough
    · rw [if_pos hpass] at hb
      injection hb with h2
      subst h2
      show (match pm.run s with
        | .ok r => (.ok r : Except String Value)
        | .error _ => tryParsers unm [] s) = .ok v
      rw [hrun]
    · rw [if_neg hpass] at hb
      cases hrest : buildMembers tbl post with
      | error e => rw [hrest] at hb; cases hb
      | ok ps2 =>
        rw [hrest] at hb
        injection hb with h2
        subst h2
        show (match pm.run s with
          | .ok r => (.ok r : Except String Value)
          | .error _ => tryParsers unm ps2 s) = .ok v
        rw [hrun]
  | cons a rest ih =>
    intro m post ps hb hrej hm
    rw [List.cons_append] at hb
    rw [show buildMembers tbl (a :: (rest ++ m :: post)) = match getParserS tbl a with
      | .error e => .error e
      | .ok p => if p.passthrough then .ok [p]
          else match buildMembers tbl (rest ++ m :: post) with
            | .ok ps2 => .ok (p :: ps2)
            | .error e => .error e from rfl] at hb
    cases hpa : getParserS tbl a with
    | error e => rw [hpa] at hb; cases hb
    | ok pa =>
      rw [hpa] at hb
      replace hb : (if pa.passthrough = true then Except.ok [pa]
          else match buildMembers tbl (rest ++ m :: post) with
            | .ok ps2 => Except.ok (pa :: ps2)
            | .error e => Except.error e) = Except.ok ps := hb
      obtain ⟨e0, he0⟩ := hrej a (List.mem_cons_self _ _) pa hpa
      by_cases hpass : pa.passthrough
      · obtain ⟨w, hw⟩ := passthroughInfallible tbl a pa hpa hpass s
        rw [hw] at he0
        cases he0
      · rw [if_neg hpass] at hb
        cases hrest : buildMembers tbl (rest ++ m :: post) with
        | error e => rw [hrest] at hb; cases hb
        | ok ps2 =>
          rw [hrest] at hb
          injection hb with h2
          subst h2
          show (match pa.run s with
            | .ok r => (.ok r : Except String Value)
            | .error _ => tryParsers unm ps2 s) = .ok v
          rw [he0]
          exact ih m post ps2 hrest
            (fun b hbm pb hpb => hrej b (List.mem_cons_of_mem _ hbm) pb hpb) hm

def tblC1 : Table := fun t =>
  match t with
  | .base .none => some (fun _ => .ok .vnone)
  | _ => Option.none

/-- Claim C1 counterexample: for `Union[str, None]` with a caller-supplied
NoneType parser, the member parsers are not tried in declaration order: the
`None` member is moved to the front, so `"hello"` parses to the none value
even though the first declared member (`str`) accepts it. -/
theorem unionOrder_counterexample :
    (∃ q, getParserS tblC1 .str = .ok q ∧ q.run "hello" = .ok (.vstr "hello")) ∧
    (∃ p, getParser tblC1 (.union [.str, .none]) = .ok p ∧ p.run "hello" = .ok .vnone) ∧
    Value.vnone ≠ Value.vstr "hello" := by
  refine ⟨⟨_, rfl, rfl⟩, ⟨_, rfl, rfl⟩, ?_⟩
  intro h
  cases h

/-- Claim C1 (amended): the synthesized union parser tries the member parsers
in the source's order — a `None` member (if any) first, then the remaining
members in declaration order (`noneFirst`) — and returns the value produced
by the first member parser that accepts the input. -/
theorem unionFirstSuccess (tbl : Table) (args pre post : List STy) (m : STy)
    (s : String) (v : Value) (pU : PParser)
    (hTbl : tbl (.union args) = Option.none)
    (hU : getParser tbl (.union args) = .ok pU)
    (hsplit : noneFirst args = pre ++ m :: post)
    (hrej : ∀ a ∈ pre, ∀ pa, getParserS tbl a = .ok pa → ∃ e, pa.run s = .error e)
    (hm : ∃ pm, getParserS tbl m = .ok pm ∧ pm.run s = .ok v) :
    pU.run s = .ok v := by
  rw [show getParser tbl (.union args) = match tbl (.union args) with
    | some f => .ok ⟨f, false, pyTyName (.union args)⟩
    | none =>
      match buildMembers tbl (noneFirst args) with
      | .error e => .error e
      | .ok ps => .ok ⟨tryParsers (pyTyName (.union args)) ps, false,
          pyTyName (.union args)⟩ from rfl] at hU
  rw [hTbl, hsplit] at hU
  cases hb : buildMembers tbl (pre ++ m :: post) with
  | error e => rw [hb] at hU; cases hU
  | ok ps =>
    rw [hb] at hU
    injection hU with h2
    subst h2
    exact tryParsersFirst tbl (pyTyName (.union args)) s v pre m post ps hb hrej hm

/-- Witness for the amended C1 theorem: in `Union[int, str]` with no
overrides, `int` rejects `"abc"` and the `str` member (second in order)
accepts it. -/
theorem unionFirstSuccess_witness :
    ∃ pU, getParser tblEmpty (.union [.int, .str]) = .ok pU ∧
      pU.run "abc" = .ok (.vstr "abc") := by
  refine ⟨_, rfl, ?_⟩
  apply unionFirstSuccess tblEmpty [.int, .str] [.int] [] .str "abc" (.vstr "abc") _ rfl rfl rfl
  · intro a ha pa hpa
    have ha2 : a = STy.int := by
      rcases List.mem_cons.mp ha with h | h
      · exact h
      · cases h
    subst ha2
    rw [show getParserS tblEmpty STy.int =
      .ok ⟨fun s => (pyParseInt s).map Value.vint, false, "int"⟩ from rfl] at hpa
    injection hpa with h3
    subst h3
    exact ⟨"invalid literal for int() with base 10: abc", rfl⟩
  · exact ⟨⟨fun s => .ok (.vstr s), true, "str"⟩, rfl, rfl⟩

/-- Claim C9: with no caller-supplied NoneType parser (and no override for
the union itself), the parser synthesized for `Union[T, None]` returns the
same value as the parser synthesized for `T` whenever the latter succeeds:
the built-in `_parse_none` rejects every string, so the none member — though
ordered first — never produces a value. -/
theorem optionalRefinesBase (tbl : Table) (t : STy) (s : String) (v : Value) (pT : PParser)
    (hNoNone : tbl (.base .none) = Option.none)
    (hNoU : tbl (.union [t, .none]) = Option.none)
    (hNotNone : isNoneSTy t = false)
    (hT : getParserS tbl t = .ok pT)
    (hRun : pT.run s = .ok v) :
    ∃ pU, getParser tbl (.union [t, .none]) = .ok pU ∧ pU.run s = .ok v := by
  have hnf : noneFirst [t, .none] = [.none, t] := by
    unfold noneFirst
    rw [if_pos (by simp [isNoneSTy])]
    simp only [List.filter, hNotNone]
    rfl
  have hnp : getParserS tbl .none = .ok ⟨parseNone, false, "NoneType"⟩ := by
    unfold getParserS
    rw [hNoNone]
  have hb1 : buildMembers tbl [t] = .ok [pT] := by
    rw [show buildMembers tbl [t] = match getParserS tbl t with
      | .error e => .error e
      | .ok p => if p.passthrough then .ok [p]
          else match buildMembers tbl ([] : List STy) with
            | .ok ps2 => .ok (p :: ps2)
            | .error e => .error e from rfl]
    rw [hT]
    show (if pT.passthrough = true then Except.ok [pT]
      else match buildMembers tbl ([] : List STy) with
        | .ok ps2 => Except.ok (pT :: ps2)
        | .error e => Except.error e) = Except.ok [pT]
    by_cases hpass : pT.passthrough
    · rw [if_pos hpass]
    · rw [if_neg hpass]
      rfl
  have hb : buildMembers tbl [.none, t] = .ok [⟨parseNone, false, "NoneType"⟩, pT] := by
    rw [show buildMembers tbl [.none, t] = match getParserS tbl .none with
      | .error e => .error e
      | .ok p => if p.passthrough then .ok [p]
          else match buildMembers tbl [t] with
            | .ok ps2 => .ok (p :: ps2)
            | .error e => .error e from rfl]
    rw [hnp]
    show (match buildMembers tbl [t] with
      | .ok ps2 => Except.ok ((⟨parseNone, false, "NoneType"⟩ : PParser) :: ps2)
      | .error e => Except.error e) =
      Except.ok [(⟨parseNone, false, "NoneType"⟩ : PParser), pT]
    rw [hb1]
  refine ⟨⟨tryParsers (pyTyName (.union [t, .none]))
      [⟨parseNone, false, "NoneType"⟩, pT], false, pyTyName (.union [t, .none])⟩, ?_, ?_⟩
  · rw [show getParser tbl (.union [t, .none]) = match tbl (.union [t, .none]) with
      | some f => .ok ⟨f, false, pyTyName (.union [t, .none])⟩
      | none =>
        match buildMembers tbl (noneFirst [t, .none]) with
        | .error e => .error e
        | .ok ps => .ok ⟨tryParsers (pyTyName (.union [t, .none])) ps, false,
            pyTyName (.union [t, .none])⟩ from rfl]
    rw [hNoU, hnf, hb]
  · show (match parseNone s with
      | .ok r => (.ok r : Except String Value)
      | .error _ => tryParsers (pyTyName (.union [t, .none])) [pT] s) = .ok v
    show tryParsers (pyTyName (.union [t, .none])) [pT] s = .ok v
    show (match pT.run s with
      | .ok r => (.ok r : Except String Value)
      | .error _ => tryParsers (pyTyName (.union [t, .none])) [] s) = .ok v
    rw [hRun]

/-- Witness for C9: `Union[int, None]` with no overrides parses `"5"` exactly
as `int` does. -/
theorem optionalRefinesBase_witness :
    ∃ pU, getParser tblEmpty (.union [.int, .none]) = .ok pU ∧
      pU.run "5" = .ok (.vint 5) := by
  exact optionalRefinesBase tblEmpty .int "5" (.vint 5)
    ⟨fun s => (pyParseInt s).map Value.vint, false, "int"⟩ rfl rfl rfl rfl rfl

end Defopt
